import Mathlib

/-!
Shallow embedding of the streaming G-code motion-reconstruction and
resampling pipeline of `tools/4th_axis_post_processor/gcode_parser.py`.

Modelling conventions:
* a file is a list of raw text lines (`List (List Char)`), one entry per line
  of the source file, without trailing newlines;
* Python floats are idealised as exact rationals (`ℚ`): every numeric token
  of a G-code file is a decimal literal, and all parser state updates are
  assignments, additions and order comparisons, which are exact over `ℚ`;
* the square root and arc-cosine used by the geometry of the resampler are the
  corresponding real functions (`Real.sqrt`, `Real.arccos`);
* generators are modelled as the full (finite) list of the values they yield.
-/

namespace GcodeParser

/-! ## Line tokenizer

Embeds `_strip_comments`, `_parse_coords` and the anchored command-prefix
regexes (`MOVE_CMD_RE`, the `startswith` tests for `G90`/`G91`/`M82`/`M83`/
`G92`).
-/

/-- One step of the scan of the first alternative of `COMMENT_RE`, `\(.*?\)`:
drop everything up to and including the first `)`; `none` when the
parenthesis is never closed (the regex then fails to match at the `(`). -/
def dropParen : List Char → Option (List Char)
  | [] => none
  | c :: rest => if c = ')' then some rest else dropParen rest

theorem dropParen_length :
    ∀ (l r : List Char), dropParen l = some r → r.length < l.length := by
  intro l
  induction l with
  | nil => intro r h; simp [dropParen] at h
  | cons c rest ih =>
    intro r h
    by_cases hc : c = ')'
    · simp [dropParen, hc] at h
      subst h; simp
    · simp [dropParen, hc] at h
      exact Nat.lt_trans (ih r h) (by simp)

/-- Fuel-bounded left-to-right scan of `COMMENT_RE.sub("", line)`: a
matched parenthesised group `\(.*?\)` is removed, `;.*$` removes the rest
of the line, an unclosed `(` is kept and scanning continues after it.
Each step consumes at least one character, so fuel `l.length` is always
sufficient; the fuel only bounds the recursion structurally so that the
definition evaluates inside the kernel. -/
def stripParenSemiF : ℕ → List Char → List Char
  | 0, _ => []
  | _, [] => []
  | fuel + 1, c :: rest =>
    if c = '(' then
      match dropParen rest with
      | some rest2 => stripParenSemiF fuel rest2
      | none => c :: stripParenSemiF fuel rest
    else if c = ';' then []
    else c :: stripParenSemiF fuel rest

/-- The comment-removal scan at full fuel. -/
def stripParenSemi (l : List Char) : List Char :=
  stripParenSemiF l.length l

/-- Python `str.strip()` on a character list. -/
def stripSpaces (l : List Char) : List Char :=
  ((l.dropWhile Char.isWhitespace).reverse.dropWhile Char.isWhitespace).reverse

/-- `_strip_comments`: remove comments, then strip surrounding whitespace. -/
def stripComments (l : List Char) : List Char :=
  stripSpaces (stripParenSemi l)

/-- Boolean prefix test on character lists (the anchored part of the
command regexes and the Python `startswith` test). -/
def leadsWith : List Char → List Char → Bool
  | [], _ => true
  | _ :: _, [] => false
  | a :: as, b :: bs => a == b && leadsWith as bs

/-- A regex word character (`\w`), as used by the `\b` in `MOVE_CMD_RE`. -/
def isWordChar (c : Char) : Bool := c.isAlphanum || c = '_'

/-- `\b` after an `n`-character command prefix: end of line or a
non-word character. -/
def boundaryAfter (l : List Char) (n : ℕ) : Bool :=
  match l.drop n with
  | [] => true
  | c :: _ => !(isWordChar c)

/-- One alternative of `MOVE_CMD_RE`: prefix plus word boundary. -/
def moveTok (p l : List Char) : Bool :=
  leadsWith p l && boundaryAfter l p.length

/-- `MOVE_CMD_RE.search(line)`: the regex is anchored at the start, so a
search succeeds exactly when one of `G0`, `G1`, `G00`, `G01` is a prefix
followed by a word boundary. -/
def isMoveCmd (l : List Char) : Bool :=
  moveTok ['G', '0'] l || moveTok ['G', '1'] l ||
    moveTok ['G', '0', '0'] l || moveTok ['G', '0', '1'] l

/-- The axis-letter class `[XYEIJRZ]` of `COORD_RE` (case-insensitive). -/
def isAxisChar (c : Char) : Bool :=
  c.toUpper == 'X' || c.toUpper == 'Y' || c.toUpper == 'E' ||
    c.toUpper == 'I' || c.toUpper == 'J' || c.toUpper == 'R' ||
    c.toUpper == 'Z'

/-- Numeric value of a digit string. -/
def digitsToNat (ds : List Char) : ℕ :=
  ds.foldl (fun a c => 10 * a + (c.toNat - ('0').toNat)) 0

/-- Value of the fractional digit string after the decimal point. -/
def fracVal (fs : List Char) : ℚ :=
  (digitsToNat fs : ℚ) / (10 : ℚ) ^ fs.length

/-- The optional sign `[-+]?` at the start of a number match: returns
whether the value is negated and the characters after the sign. -/
def signSplit (l : List Char) : Bool × List Char :=
  match l with
  | c :: r => if c = '-' then (true, r) else if c = '+' then (false, r) else (false, l)
  | [] => (false, l)

/-- Negate the magnitude when the matched sign was `-` (the effect of
the Python `float` call on the signed token). -/
def applySign (neg : Bool) (q : ℚ) : ℚ := if neg then -q else q

/-- Greedy match of the number group of `COORD_RE`, `[-+]?[0-9]*\.?[0-9]+` at the
head of `l`, returning the parsed value and the unconsumed rest.  The dot is
consumed only when at least one digit follows it (regex backtracking), and
the match fails when it contains no digit at all. -/
def parseNumber (l : List Char) : Option (ℚ × List Char) :=
  let sgn := signSplit l
  let ds := sgn.2.takeWhile Char.isDigit
  let l2 := sgn.2.dropWhile Char.isDigit
  match l2 with
  | c :: r =>
    if c = '.' then
      let fs := r.takeWhile Char.isDigit
      let l3 := r.dropWhile Char.isDigit
      if fs = [] then
        if ds = [] then none
        else some (applySign sgn.1 (digitsToNat ds : ℚ), l2)
      else some (applySign sgn.1 ((digitsToNat ds : ℚ) + fracVal fs), l3)
    else if ds = [] then none
    else some (applySign sgn.1 (digitsToNat ds : ℚ), l2)
  | [] =>
    if ds = [] then none
    else some (applySign sgn.1 (digitsToNat ds : ℚ), l2)

theorem dropWhile_length_le (p : Char → Bool) :
    ∀ l : List Char, (l.dropWhile p).length ≤ l.length := by
  intro l
  induction l with
  | nil => simp
  | cons c rest ih =>
    by_cases h : p c
    · simp [List.dropWhile, h]
      exact Nat.le_trans ih (by simp)
    · simp [List.dropWhile, h]

theorem signSplit_length (l : List Char) : (signSplit l).2.length ≤ l.length := by
  unfold signSplit
  rcases l with _ | ⟨c, r⟩
  · simp
  · by_cases h1 : c = '-'
    · simp [h1]
    · by_cases h2 : c = '+' <;> simp [h1, h2]

theorem parseNumber_length (l : List Char) (vr : ℚ × List Char)
    (h : parseNumber l = some vr) : vr.2.length ≤ l.length := by
  have hm : ((signSplit l).2.dropWhile Char.isDigit).length ≤ l.length :=
    le_trans (dropWhile_length_le Char.isDigit _) (signSplit_length l)
  unfold parseNumber at h
  dsimp only at h
  split at h
  next c2 r2 heq =>
    rw [heq] at hm
    split at h
    · split at h
      · split at h
        · simp at h
        · have h2 := Option.some_inj.mp h
          rw [← h2]
          simp only [heq]
          exact hm
      · have h2 := Option.some_inj.mp h
        rw [← h2]
        have h3 := dropWhile_length_le Char.isDigit r2
        simp at hm ⊢
        omega
    · split at h
      · simp at h
      · have h2 := Option.some_inj.mp h
        rw [← h2]
        simp only [heq]
        exact hm
  next heq =>
    split at h
    · simp at h
    · have h2 := Option.some_inj.mp h
      rw [← h2]
      simp [heq]

/-- Fuel-bounded `COORD_RE.finditer(line)`: scan left to right; at an
axis letter try to match a number immediately after it; on success emit
the (upper-cased letter, value) pair and resume after the number, on
failure resume one character further (like the regex engine does).  By
`parseNumber_length` every step consumes at least the leading character,
so fuel `l.length` is always sufficient. -/
def scanCoordsF : ℕ → List Char → List (Char × ℚ)
  | 0, _ => []
  | _, [] => []
  | fuel + 1, c :: rest =>
    if isAxisChar c then
      match parseNumber rest with
      | some vr => (c.toUpper, vr.1) :: scanCoordsF fuel vr.2
      | none => scanCoordsF fuel rest
    else scanCoordsF fuel rest

/-- The coordinate scan at full fuel. -/
def scanCoords (l : List Char) : List (Char × ℚ) := scanCoordsF l.length l

/-- `_parse_coords` builds a `dict`, so a repeated axis letter keeps the
value of its last occurrence. -/
def getCoord (cs : List (Char × ℚ)) (a : Char) : Option ℚ :=
  ((cs.filter (fun p : Char × ℚ => p.1 == a)).getLast?).map (fun p => p.2)

/-! ## Motion-state tracker (`parse_gcode_points_extrude`) -/

/-- An emitted position sample `(cur_x, cur_y, cur_z, extruding)`. -/
abbrev Sample := ℚ × ℚ × ℚ × Bool

/-- The mutable state of `parse_gcode_points_extrude`. -/
structure EState where
  modeAbsolute : Bool
  eAbsolute : Bool
  curX : ℚ
  curY : ℚ
  curZ : ℚ
  curE : ℚ
  lastE : ℚ
  eOffset : ℚ
  extrudingState : Bool
deriving Repr, DecidableEq

/-- Initial tracker state: absolute positioning, absolute extrusion, all
coordinates zero, not extruding. -/
def initEState : EState :=
  { modeAbsolute := true, eAbsolute := true, curX := 0, curY := 0,
    curZ := 0, curE := 0, lastE := 0, eOffset := 0, extrudingState := false }

/-- The `G92` branch: snap `cur_e` (with `last_e` and `e_offset`) and/or
`cur_z` to the given values. -/
def applyG92 (st : EState) (coords : List (Char × ℚ)) : EState :=
  let s1 :=
    match getCoord coords 'E' with
    | some v => { st with curE := v, lastE := v, eOffset := v }
    | none => st
  match getCoord coords 'Z' with
  | some v => { s1 with curZ := v }
  | none => s1

/-- The `G90`/`G91`/`M82`/`M83`/`G92` `if`/`elif` cascade of
`parse_gcode_points_extrude`. -/
def applyModal (st : EState) (line : List Char) : EState :=
  if leadsWith ['G', '9', '0'] line then { st with modeAbsolute := true }
  else if leadsWith ['G', '9', '1'] line then { st with modeAbsolute := false }
  else if leadsWith ['M', '8', '2'] line then { st with eAbsolute := true }
  else if leadsWith ['M', '8', '3'] line then { st with eAbsolute := false }
  else if leadsWith ['G', '9', '2'] line then applyG92 st (scanCoords line)
  else st

/-- Does a motion line carry at least one of X, Y, Z?  (`x_found or
y_found or z_found` in the source.) -/
def hasXYZ (line : List Char) : Bool :=
  (getCoord (scanCoords line) 'X').isSome ||
    (getCoord (scanCoords line) 'Y').isSome ||
    (getCoord (scanCoords line) 'Z').isSome

/-- The motion-command branch of `parse_gcode_points_extrude`: record
`prev_e`, overwrite the axes that are present, update the extrusion state
when E is present, emit a sample when at least one of X, Y, Z is present,
and finally set `last_e = cur_e`. -/
def applyMove (st : EState) (line : List Char) : EState × List Sample :=
  let coords := scanCoords line
  let prevE := st.curE
  let s1 :=
    match getCoord coords 'X' with
    | some v => { st with curX := v }
    | none => st
  let s2 :=
    match getCoord coords 'Y' with
    | some v => { s1 with curY := v }
    | none => s1
  let s3 :=
    match getCoord coords 'Z' with
    | some v => { s2 with curZ := v }
    | none => s2
  let s4 :=
    match getCoord coords 'E' with
    | some v =>
      if s3.eAbsolute then
        { s3 with curE := v, extrudingState := decide (prevE < v) }
      else
        { s3 with curE := s3.curE + v, extrudingState := decide (0 < v) }
    | none => s3
  let out : List Sample :=
    if hasXYZ line then [(s4.curX, s4.curY, s4.curZ, s4.extrudingState)] else []
  ({ s4 with lastE := s4.curE }, out)

/-- Processing of a single raw line by `parse_gcode_points_extrude`:
strip comments, skip blank results, run the modal cascade, then the motion
branch when the line is a motion command. -/
def processLine (st : EState) (raw : List Char) : EState × List Sample :=
  let line := stripComments raw
  if line = [] then (st, [])
  else
    let s1 := applyModal st line
    if isMoveCmd line then applyMove s1 line else (s1, [])

/-- The generator loop of `parse_gcode_points_extrude`, threading the
tracker state through the lines in file order. -/
def parseExtrudeGo (st : EState) : List (List Char) → List Sample
  | [] => []
  | raw :: rest =>
    (processLine st raw).2 ++ parseExtrudeGo (processLine st raw).1 rest

/-- `parse_gcode_points_extrude(file)`: all samples yielded for the lines of the file, in order. -/
def parseGcodePointsExtrude (lines : List (List Char)) : List Sample :=
  parseExtrudeGo initEState lines

/-- Does a raw line make `parse_gcode_points_extrude` yield a sample?
This is a property of the line alone: a recognized motion command carrying
at least one of X, Y, Z. -/
def emitsSample (raw : List Char) : Bool :=
  isMoveCmd (stripComments raw) && hasXYZ (stripComments raw)

/-- `collect_sparse_points(file, raw=True)`: drain the tracker into four
parallel arrays. -/
def collectRawPoints (lines : List (List Char)) :
    List ℚ × List ℚ × List ℚ × List Bool :=
  let s := parseGcodePointsExtrude lines
  (s.map (fun t => t.1), s.map (fun t => t.2.1),
    s.map (fun t => t.2.2.1), s.map (fun t => t.2.2.2))

/-! ## 2D parser (`parse_gcode_points`), consumed by the resampler -/

/-- The mutable state of `parse_gcode_points`. -/
structure PState where
  modeAbsolute : Bool
  curX : ℚ
  curY : ℚ
deriving Repr, DecidableEq

/-- Initial state of `parse_gcode_points`. -/
def initPState : PState := { modeAbsolute := true, curX := 0, curY := 0 }

/-- Processing of a single raw line by `parse_gcode_points`: `G90`/`G91`
toggles, then the motion branch emitting `(cur_x, cur_y)` when X or Y is
present. -/
def processLine2 (st : PState) (raw : List Char) : PState × List (ℚ × ℚ) :=
  let line := stripComments raw
  if line = [] then (st, [])
  else
    let s1 :=
      if leadsWith ['G', '9', '0'] line then { st with modeAbsolute := true }
      else if leadsWith ['G', '9', '1'] line then { st with modeAbsolute := false }
      else st
    if isMoveCmd line then
      let coords := scanCoords line
      let s2 :=
        match getCoord coords 'X' with
        | some v => { s1 with curX := v }
        | none => s1
      let s3 :=
        match getCoord coords 'Y' with
        | some v => { s2 with curY := v }
        | none => s2
      if (getCoord coords 'X').isSome || (getCoord coords 'Y').isSome then
        (s3, [(s3.curX, s3.curY)])
      else (s3, [])
    else (s1, [])

/-- The generator loop of `parse_gcode_points`. -/
def parse2Go (st : PState) : List (List Char) → List (ℚ × ℚ)
  | [] => []
  | raw :: rest =>
    (processLine2 st raw).2 ++ parse2Go (processLine2 st raw).1 rest

/-- `parse_gcode_points(file)`: the `(x, y)` stream for the lines of the file. -/
def parseGcodePoints (lines : List (List Char)) : List (ℚ × ℚ) :=
  parse2Go initPState lines

/-! ## Streaming batcher (`push` and the batch rotation) -/

/-- The `push` closure of `batch_points_for_spline`: append the point; once
the buffer length reaches `batchSize`, return (`batch[-2:]` as the new
buffer, `some batch[:-2]` as the completed batch to yield), else keep
buffering. -/
def pushBatch {α : Type} (batchSize : ℕ) (buf : List α) (p : α) :
    List α × Option (List α) :=
  let b := buf ++ [p]
  if batchSize ≤ b.length then
    (b.drop (b.length - 2), some (b.take (b.length - 2)))
  else (b, none)

/-- Feeding a point stream through `push`: returns the list of completed
batches yielded along the way and the final buffer contents. -/
def runBatches {α : Type} (batchSize : ℕ) (buf : List α) :
    List α → List (List α) × List α
  | [] => ([], buf)
  | p :: ps =>
    match h : pushBatch batchSize buf p with
    | (buf2, none) => runBatches batchSize buf2 ps
    | (buf2, some y) =>
      let r := runBatches batchSize buf2 ps
      (y :: r.1, r.2)

/-- All batches yielded by the generator for a given pushed-point stream:
the completed batches, then the final buffer when it is non-empty
(`if batch: yield batch.copy()`). -/
def allBatches {α : Type} (batchSize : ℕ) (ps : List α) : List (List α) :=
  let r := runBatches batchSize [] ps
  r.1 ++ (if r.2.isEmpty then [] else [r.2])

/-! ## Corner-adaptive resampler geometry -/

/-- `np.linspace(a, b, n+1)[1:]` along both coordinates: the `k`-th point
(1-based) of `n` evenly spaced points from `a` (excluded) to `b`
(included). -/
def lerpQ (a b : ℚ × ℚ) (k n : ℕ) : ℚ × ℚ :=
  (a.1 + ((k : ℚ) / (n : ℚ)) * (b.1 - a.1),
    a.2 + ((k : ℚ) / (n : ℚ)) * (b.2 - a.2))

/-- The corner-densification samples of `batch_points_for_spline`:
`np.linspace(a, b, n+1)[1:]` pointwise. -/
def cornerPts (a b : ℚ × ℚ) (n : ℕ) : List (ℚ × ℚ) :=
  (List.range n).map (fun i => lerpQ a b (i + 1) n)

/-- `_lin_interpolate(p0, p1, n)`: `n` points excluding `p0` including
`p1`; for `n <= 1` just `[p1]`. -/
def linInterpolate (a b : ℚ × ℚ) (n : ℕ) : List (ℚ × ℚ) :=
  if n ≤ 1 then [b] else cornerPts a b n

/-- `np.linalg.norm` of a 2-vector with rational components. -/
noncomputable def vnorm (v : ℚ × ℚ) : ℝ :=
  Real.sqrt (((v.1 * v.1 + v.2 * v.2 : ℚ) : ℝ))

/-- `np.dot` of two 2-vectors. -/
def dotQ (a b : ℚ × ℚ) : ℚ := a.1 * b.1 + a.2 * b.2

/-- The clamped cosine `max(-1.0, min(1.0, dot/(na*nb)))` of
`_angle_between`. -/
noncomputable def clampedCos (a b : ℚ × ℚ) : ℝ :=
  max (-1 : ℝ) (min (1 : ℝ) (((dotQ a b : ℚ) : ℝ) / (vnorm a * vnorm b)))

/-- `_angle_between(a, b)`: `0` when either norm is zero, otherwise the
arc-cosine of the clamped normalized dot product. -/
noncomputable def angleBetween (a b : ℚ × ℚ) : ℝ :=
  if vnorm a = 0 ∨ vnorm b = 0 then 0 else Real.arccos (clampedCos a b)

/-- `math.hypot` distance between two points. -/
noncomputable def segDist (a b : ℚ × ℚ) : ℝ :=
  Real.sqrt ((((b.1 - a.1) * (b.1 - a.1) + (b.2 - a.2) * (b.2 - a.2) : ℚ) : ℝ))

open Classical in
/-- `_append_segment(a, b)`: nothing when the distance is not positive,
otherwise `max(1, ceil(dist/straight_sample_dist))` interpolated points. -/
noncomputable def appendSegmentPts (ssd : ℚ) (a b : ℚ × ℚ) : List (ℚ × ℚ) :=
  if segDist a b ≤ 0 then []
  else linInterpolate a b (max 1 ⌈segDist a b / (ssd : ℝ)⌉).toNat

open Classical in
/-- One 3-point-window step of `batch_points_for_spline`: corner
densification on both adjacent segments when the turn angle reaches the
threshold, distance-based decimation of `prev1→p` otherwise. -/
noncomputable def resampleStep (θ : ℝ) (cd : ℕ) (ssd : ℚ) (r q p : ℚ × ℚ) :
    List (ℚ × ℚ) :=
  if θ ≤ angleBetween (q.1 - r.1, q.2 - r.2) (p.1 - q.1, p.2 - q.2) then
    cornerPts r q cd ++ cornerPts q p cd
  else appendSegmentPts ssd q p

/-- The rolling-window loop of `batch_points_for_spline` over the parsed
point stream, returning every point handed to `push` in order: the first
point is pushed as is, the second through `_append_segment`, and each
further point through the 3-point-window step. -/
noncomputable def resampleGo (θ : ℝ) (cd : ℕ) (ssd : ℚ) :
    Option (ℚ × ℚ) → Option (ℚ × ℚ) → List (ℚ × ℚ) → List (ℚ × ℚ)
  | _, _, [] => []
  | prev2, none, p :: rest => p :: resampleGo θ cd ssd prev2 (some p) rest
  | none, some q, p :: rest =>
    appendSegmentPts ssd q p ++ resampleGo θ cd ssd (some q) (some p) rest
  | some r, some q, p :: rest =>
    resampleStep θ cd ssd r q p ++ resampleGo θ cd ssd (some q) (some p) rest

/-- The full stream of points pushed by `batch_points_for_spline`. -/
noncomputable def resamplePoints (θ : ℝ) (cd : ℕ) (ssd : ℚ)
    (ps : List (ℚ × ℚ)) : List (ℚ × ℚ) :=
  resampleGo θ cd ssd none none ps

/-- `math.radians(angle_threshold_deg)`. -/
noncomputable def degToRad (d : ℚ) : ℝ := ((d : ℝ)) * Real.pi / 180

/-- `batch_points_for_spline(file_path, batch_size, angle_threshold_deg,
corner_density, straight_sample_dist)`: the list of yielded batches. -/
noncomputable def batchPointsForSpline (lines : List (List Char))
    (batchSize : ℕ) (angleThresholdDeg : ℚ) (cornerDensity : ℕ)
    (straightSampleDist : ℚ) : List (List (ℚ × ℚ)) :=
  allBatches batchSize
    (resamplePoints (degToRad angleThresholdDeg) cornerDensity
      straightSampleDist (parseGcodePoints lines))

/-! ## Sparse point collector (`collect_sparse_points`, legacy mode) -/

/-- Python `kept[::2]`: every other element, starting with the first. -/
def everyOther {α : Type} : List α → List α
  | [] => []
  | [a] => [a]
  | a :: _ :: rest => a :: everyOther rest

/-- The accumulation loop of `collect_sparse_points`: extend by each batch
and halve whenever the collection exceeds `2 * max_points`. -/
def sparseAccum {α : Type} (maxPoints : ℕ) (kept : List α) :
    List (List α) → List α
  | [] => kept
  | b :: bs =>
    sparseAccum maxPoints
      (if maxPoints * 2 < (kept ++ b).length then everyOther (kept ++ b)
       else kept ++ b) bs

/-- `np.linspace(0, n-1, k).astype(int)`: the `k` evenly spaced indices
(idealised with exact integer arithmetic; `astype(int)` truncates). -/
def linspaceIdx (n k : ℕ) : List ℕ :=
  (List.range k).map (fun i => i * (n - 1) / (k - 1))

/-- The final evenly-spaced index selection of `collect_sparse_points`. -/
def sparseReduce (maxPoints : ℕ) (kept : List (ℚ × ℚ)) : List (ℚ × ℚ) :=
  if maxPoints < kept.length then
    (linspaceIdx kept.length maxPoints).map (fun i => kept.getD i (0, 0))
  else kept

/-- `collect_sparse_points(file, max_points, raw=False, **kwargs)`:
batches are accumulated with halving, reduced to at most `max_points`
evenly spaced survivors, and unzipped into the two coordinate arrays. -/
noncomputable def collectSparsePoints (lines : List (List Char))
    (maxPoints : ℕ) (batchSize : ℕ) (angleThresholdDeg : ℚ)
    (cornerDensity : ℕ) (straightSampleDist : ℚ) : List ℚ × List ℚ :=
  let kept := sparseReduce maxPoints
    (sparseAccum maxPoints []
      (batchPointsForSpline lines batchSize angleThresholdDeg cornerDensity
        straightSampleDist))
  if kept = [] then ([], [])
  else (kept.map (fun p => p.1), kept.map (fun p => p.2))

/-! ## Batcher lemmas -/

theorem pushBatch_trigger {α : Type} (bs : ℕ) (buf : List α) (p : α)
    (h : bs ≤ buf.length + 1) :
    pushBatch bs buf p =
      ((buf ++ [p]).drop ((buf ++ [p]).length - 2),
        some ((buf ++ [p]).take ((buf ++ [p]).length - 2))) := by
  unfold pushBatch
  rw [if_pos]
  simpa using h

theorem pushBatch_buffer {α : Type} (bs : ℕ) (buf : List α) (p : α)
    (h : buf.length + 1 < bs) :
    pushBatch bs buf p = (buf ++ [p], none) := by
  unfold pushBatch
  rw [if_neg]
  simp
  omega

theorem runBatches_flatten {α : Type} (bs : ℕ) :
    ∀ (ps buf : List α),
      ((runBatches bs buf ps).1).flatten ++ (runBatches bs buf ps).2 =
        buf ++ ps := by
  intro ps
  induction ps with
  | nil => intro buf; simp [runBatches]
  | cons p ps ih =>
    intro buf
    rcases le_or_lt bs (buf.length + 1) with hle | hlt
    · rw [runBatches, pushBatch_trigger bs buf p hle]
      simp only [List.flatten]
      have h2 := ih ((buf ++ [p]).drop ((buf ++ [p]).length - 2))
      rw [List.append_assoc, h2, ← List.append_assoc, List.take_append_drop]
      simp
    · rw [runBatches, pushBatch_buffer bs buf p hlt]
      simp only []
      rw [ih (buf ++ [p])]
      simp

theorem allBatches_flatten {α : Type} (bs : ℕ) (ps : List α) :
    (allBatches bs ps).flatten = ps := by
  unfold allBatches
  have h := runBatches_flatten bs ps []
  rcases hf : (runBatches bs [] ps).2 with _ | ⟨a, fin⟩
  · rw [hf] at h
    simp at h
    simp [hf, h]
  · rw [hf] at h
    simp at h
    simp [hf, List.flatten_append, h]

theorem runBatches_mid_length {α : Type} (bs : ℕ) (h3 : 3 ≤ bs) :
    ∀ (ps buf : List α), buf.length < bs →
      ∀ y ∈ (runBatches bs buf ps).1, y.length = bs - 2 := by
  intro ps
  induction ps with
  | nil => intro buf hb y hy; simp [runBatches] at hy
  | cons p ps ih =>
    intro buf hb y hy
    rcases le_or_lt bs (buf.length + 1) with hle | hlt
    · have hlen : buf.length + 1 = bs := by omega
      rw [runBatches, pushBatch_trigger bs buf p hle] at hy
      simp only [List.mem_cons] at hy
      rcases hy with hy | hy
      · subst hy
        simp
        omega
      · refine ih ((buf ++ [p]).drop ((buf ++ [p]).length - 2)) ?_ y hy
        simp
        omega
    · rw [runBatches, pushBatch_buffer bs buf p hlt] at hy
      refine ih (buf ++ [p]) ?_ y hy
      simp
      omega

/-- C5: the batcher buffers points; when the buffer reaches or exceeds
`batch_size` it yields everything except the last two points and retains
those as the seed of the next batch; on exhaustion the remaining buffer is
yielded as a final batch exactly when it is non-empty. -/
theorem batcher_rotation_and_final_flush :
    ∀ (bs : ℕ) (buf : List (ℚ × ℚ)) (p : ℚ × ℚ) (ps : List (ℚ × ℚ)),
      (bs ≤ buf.length + 1 →
        ∃ y kept, pushBatch bs buf p = (kept, some y) ∧
          y ++ kept = buf ++ [p] ∧
          kept.length = min 2 (buf.length + 1) ∧
          kept = (buf ++ [p]).drop (buf.length + 1 - 2) ∧
          y = (buf ++ [p]).take (buf.length + 1 - 2)) ∧
      (buf.length + 1 < bs → pushBatch bs buf p = (buf ++ [p], none)) ∧
      ((runBatches bs [] ps).2 ≠ [] →
        allBatches bs ps = (runBatches bs [] ps).1 ++ [(runBatches bs [] ps).2]) ∧
      ((runBatches bs [] ps).2 = [] →
        allBatches bs ps = (runBatches bs [] ps).1) ∧
      ∀ (lines : List (List Char)) (θdeg ssd : ℚ) (cd : ℕ),
        batchPointsForSpline lines bs θdeg cd ssd =
          allBatches bs
            (resamplePoints (degToRad θdeg) cd ssd (parseGcodePoints lines)) := by
  intro bs buf p ps
  refine ⟨?_, ?_, ?_, ?_, ?_⟩
  · intro h
    refine ⟨(buf ++ [p]).take ((buf ++ [p]).length - 2),
      (buf ++ [p]).drop ((buf ++ [p]).length - 2),
      pushBatch_trigger bs buf p h, List.take_append_drop _ _, ?_, ?_, ?_⟩
    · simp
      omega
    · simp
    · simp
  · exact pushBatch_buffer bs buf p
  · intro h
    unfold allBatches
    simp only []
    rw [if_neg]
    simpa using h
  · intro h
    unfold allBatches
    simp only []
    rw [if_pos]
    · simp
    · simpa using h
  · intro lines θdeg ssd cd
    rfl

/-- C5 witness: the rotation, buffering and final-flush clauses at concrete
inputs. -/
theorem batcher_rotation_and_final_flush_witness :
    pushBatch 3 [((0 : ℚ), (0 : ℚ)), (1, 0)] (2, 0) =
        ([(1, 0), (2, 0)], some [(0, 0)]) ∧
      pushBatch 3 ([] : List (ℚ × ℚ)) (5, 5) = ([(5, 5)], none) ∧
      allBatches 3 [((0 : ℚ), (0 : ℚ)), (1, 0), (2, 0)] =
        (runBatches 3 [] [((0 : ℚ), (0 : ℚ)), (1, 0), (2, 0)]).1 ++
          [(runBatches 3 [] [((0 : ℚ), (0 : ℚ)), (1, 0), (2, 0)]).2] ∧
      allBatches 3 ([] : List (ℚ × ℚ)) =
        (runBatches 3 [] ([] : List (ℚ × ℚ))).1 := by
  refine ⟨?_, ?_, ?_, ?_⟩
  · obtain ⟨y, kept, h1, h2, h3, h4, h5⟩ :=
      (batcher_rotation_and_final_flush 3 [((0 : ℚ), (0 : ℚ)), (1, 0)] (2, 0)
        []).1 (by norm_num)
    rw [h1, h4, h5]
    decide
  · exact (batcher_rotation_and_final_flush 3 ([] : List (ℚ × ℚ)) (5, 5)
      []).2.1 (by norm_num)
  · exact (batcher_rotation_and_final_flush 3 ([] : List (ℚ × ℚ)) (0, 0)
      [((0 : ℚ), (0 : ℚ)), (1, 0), (2, 0)]).2.2.1 (by decide)
  · exact (batcher_rotation_and_final_flush 3 ([] : List (ℚ × ℚ)) (0, 0)
      ([] : List (ℚ × ℚ))).2.2.2.1 (by decide)

/-- C6 (amended): the concatenation of all yielded batches is exactly the
pushed point stream — the two retained tail points are deferred to the
next batch, not duplicated — so the reconstructed point count equals the
total number of resampled points with no overlap dropping. -/
theorem batch_concatenation_exact :
    ∀ (lines : List (List Char)) (bs : ℕ) (θdeg ssd : ℚ) (cd : ℕ),
      (batchPointsForSpline lines bs θdeg cd ssd).flatten =
          resamplePoints (degToRad θdeg) cd ssd (parseGcodePoints lines) ∧
        ((batchPointsForSpline lines bs θdeg cd ssd).map
            (fun b => b.length)).sum =
          (resamplePoints (degToRad θdeg) cd ssd
            (parseGcodePoints lines)).length := by
  intro lines bs θdeg ssd cd
  constructor
  · exact allBatches_flatten bs _
  · have h1 : (batchPointsForSpline lines bs θdeg cd ssd).flatten =
        resamplePoints (degToRad θdeg) cd ssd (parseGcodePoints lines) :=
      allBatches_flatten bs _
    rw [← h1]
    simp [List.length_flatten]

/-- C10: with `batch_size ≥ 3` every mid-stream batch has exactly
`batch_size - 2` points and every pushed point lands in exactly one batch
(their concatenation is the pushed stream itself); with `batch_size ≤ 2`
the generator yields empty mid-stream batches. -/
theorem batch_size_invariants :
    (∀ (bs : ℕ), 3 ≤ bs →
      (∀ (ps : List (ℚ × ℚ)) (y : List (ℚ × ℚ)),
          y ∈ (runBatches bs [] ps).1 → y.length = bs - 2) ∧
        ∀ ps : List (ℚ × ℚ), (allBatches bs ps).flatten = ps) ∧
      ∀ (bs : ℕ), bs ≤ 2 →
        [] ∈ (runBatches bs [] [((0 : ℚ), (0 : ℚ)), (0, 0)]).1 := by
  constructor
  · intro bs h3
    constructor
    · intro ps y hy
      have hlt : ([] : List (ℚ × ℚ)).length < bs := by simp; omega
      exact runBatches_mid_length bs h3 ps [] hlt y hy
    · intro ps
      exact allBatches_flatten bs ps
  · intro bs hbs
    interval_cases bs
    · decide
    · decide
    · decide

/-- C10 witness: the invariants applied at `batch_size = 3` (triggering the
hypothesis `3 ≤ bs`) and at `batch_size = 2` (triggering `bs ≤ 2`). -/
theorem batch_size_invariants_witness :
    (∀ y : List (ℚ × ℚ),
        y ∈ (runBatches 3 [] [((0 : ℚ), (0 : ℚ)), (1, 0), (2, 0)]).1 →
          y.length = 1) ∧
      [] ∈ (runBatches 2 [] [((0 : ℚ), (0 : ℚ)), (0, 0)]).1 := by
  constructor
  · intro y hy
    exact (batch_size_invariants.1 3 (by norm_num)).1
      [((0 : ℚ), (0 : ℚ)), (1, 0), (2, 0)] y hy
  · exact batch_size_invariants.2 2 (by norm_num)

/-! ## Tracker lemmas -/

theorem applyMove_emitLen (st : EState) (line : List Char) :
    ((applyMove st line).2).length = if hasXYZ line then 1 else 0 := by
  unfold applyMove
  dsimp only
  by_cases h : hasXYZ line = true <;> simp [h]

theorem processLine_emitLen (st : EState) (raw : List Char) :
    ((processLine st raw).2).length = if emitsSample raw then 1 else 0 := by
  unfold processLine emitsSample
  by_cases h0 : stripComments raw = []
  · rw [h0]
    simp [isMoveCmd, moveTok, leadsWith]
  · simp only [h0, if_neg]
    by_cases hm : isMoveCmd (stripComments raw) = true
    · simp [hm, applyMove_emitLen]
    · simp at hm
      simp [hm]

theorem parseExtrudeGo_length (lines : List (List Char)) :
    ∀ st : EState, (parseExtrudeGo st lines).length =
      lines.countP (fun l => emitsSample l) := by
  induction lines with
  | nil => intro st; simp [parseExtrudeGo]
  | cons raw rest ih =>
    intro st
    rw [parseExtrudeGo, List.countP_cons]
    simp only [List.length_append, ih, processLine_emitLen]
    by_cases h : emitsSample raw = true <;> simp [h] <;> omega

/-- C1: raw-mode extraction yields the four parallel arrays of one sample
per motion line carrying at least one of X, Y, Z, in input order: the four
arrays have the length of the sample stream, that length counts exactly
the emitting lines, and each line contributes one sample when it is an
emitting motion line and none otherwise (in particular, pure-E motion
lines contribute none). -/
theorem raw_mode_one_sample_per_motion_line :
    ∀ lines : List (List Char),
      (collectRawPoints lines).1.length =
          (parseGcodePointsExtrude lines).length ∧
        (collectRawPoints lines).2.1.length =
          (parseGcodePointsExtrude lines).length ∧
        (collectRawPoints lines).2.2.1.length =
          (parseGcodePointsExtrude lines).length ∧
        (collectRawPoints lines).2.2.2.length =
          (parseGcodePointsExtrude lines).length ∧
        (parseGcodePointsExtrude lines).length =
          lines.countP (fun l => emitsSample l) ∧
        ∀ (st : EState) (raw : List Char),
          ((processLine st raw).2).length = if emitsSample raw then 1 else 0 := by
  intro lines
  refine ⟨?_, ?_, ?_, ?_, ?_, ?_⟩
  · simp [collectRawPoints]
  · simp [collectRawPoints]
  · simp [collectRawPoints]
  · simp [collectRawPoints]
  · exact parseExtrudeGo_length lines initEState
  · exact processLine_emitLen

/-! Shape lemmas used to resolve the modal cascade on motion and `G92`
lines. -/

theorem leadsWith_shape2 (a b : Char) (s l : List Char)
    (h : leadsWith (a :: b :: s) l = true) : ∃ t, l = a :: b :: t := by
  rcases l with _ | ⟨x, xs⟩
  · simp [leadsWith] at h
  · rcases xs with _ | ⟨y, ys⟩
    · simp [leadsWith] at h
    · simp [leadsWith] at h
      exact ⟨ys, by simp [h.1, h.2.1]⟩

theorem isMoveCmd_shape (l : List Char) (h : isMoveCmd l = true) :
    ∃ c t, l = 'G' :: c :: t ∧ (c = '0' ∨ c = '1') := by
  unfold isMoveCmd moveTok at h
  simp only [Bool.or_eq_true, Bool.and_eq_true] at h
  rcases h with ((⟨h1, _⟩ | ⟨h1, _⟩) | ⟨h1, _⟩) | ⟨h1, _⟩
  · obtain ⟨t, ht⟩ := leadsWith_shape2 _ _ _ _ h1
    exact ⟨'0', t, ht, Or.inl rfl⟩
  · obtain ⟨t, ht⟩ := leadsWith_shape2 _ _ _ _ h1
    exact ⟨'1', t, ht, Or.inr rfl⟩
  · obtain ⟨t, ht⟩ := leadsWith_shape2 _ _ _ _ h1
    exact ⟨'0', t, ht, Or.inl rfl⟩
  · obtain ⟨t, ht⟩ := leadsWith_shape2 _ _ _ _ h1
    exact ⟨'0', t, ht, Or.inl rfl⟩

theorem applyModal_move (st : EState) (line : List Char)
    (hm : isMoveCmd line = true) : applyModal st line = st := by
  obtain ⟨c, t, hline, hc⟩ := isMoveCmd_shape line hm
  subst hline
  rcases hc with hc | hc <;> subst hc <;>
    simp [applyModal, leadsWith]

theorem isMoveCmd_nil_false : isMoveCmd ([] : List Char) = false := by
  decide

theorem processLine_move (st : EState) (raw : List Char)
    (hm : isMoveCmd (stripComments raw) = true) :
    processLine st raw = applyMove st (stripComments raw) := by
  unfold processLine
  have hne : stripComments raw ≠ [] := by
    intro h0
    rw [h0] at hm
    simp [isMoveCmd_nil_false] at hm
  simp only [hne, if_neg, hm, if_pos, applyModal_move st _ hm]
  simp

theorem applyMove_xyz (st : EState) (line : List Char) :
    (applyMove st line).1.curX = (getCoord (scanCoords line) 'X').getD st.curX ∧
      (applyMove st line).1.curY = (getCoord (scanCoords line) 'Y').getD st.curY ∧
      (applyMove st line).1.curZ = (getCoord (scanCoords line) 'Z').getD st.curZ ∧
      (applyMove st line).1.eAbsolute = st.eAbsolute ∧
      (applyMove st line).1.modeAbsolute = st.modeAbsolute := by
  unfold applyMove
  rcases hx : getCoord (scanCoords line) 'X' with _ | xv <;>
    rcases hy : getCoord (scanCoords line) 'Y' with _ | yv <;>
    rcases hz : getCoord (scanCoords line) 'Z' with _ | zv <;>
    rcases he : getCoord (scanCoords line) 'E' with _ | ev <;>
    cases hab : st.eAbsolute <;>
    simp [hx, hy, hz, he, hab]

theorem applyMove_extrude_abs (st : EState) (line : List Char) (v : ℚ)
    (he : getCoord (scanCoords line) 'E' = some v)
    (hab : st.eAbsolute = true) :
    (applyMove st line).1.curE = v ∧
      (applyMove st line).1.extrudingState = decide (st.curE < v) ∧
      (applyMove st line).1.lastE = v := by
  unfold applyMove
  rcases hx : getCoord (scanCoords line) 'X' with _ | xv <;>
    rcases hy : getCoord (scanCoords line) 'Y' with _ | yv <;>
    rcases hz : getCoord (scanCoords line) 'Z' with _ | zv <;>
    simp [hx, hy, hz, he, hab]

theorem applyMove_extrude_rel (st : EState) (line : List Char) (v : ℚ)
    (he : getCoord (scanCoords line) 'E' = some v)
    (hab : st.eAbsolute = false) :
    (applyMove st line).1.curE = st.curE + v ∧
      (applyMove st line).1.extrudingState = decide (0 < v) ∧
      (applyMove st line).1.lastE = st.curE + v := by
  unfold applyMove
  rcases hx : getCoord (scanCoords line) 'X' with _ | xv <;>
    rcases hy : getCoord (scanCoords line) 'Y' with _ | yv <;>
    rcases hz : getCoord (scanCoords line) 'Z' with _ | zv <;>
    simp [hx, hy, hz, he, hab]

theorem applyMove_extrude_none (st : EState) (line : List Char)
    (he : getCoord (scanCoords line) 'E' = none) :
    (applyMove st line).1.curE = st.curE ∧
      (applyMove st line).1.extrudingState = st.extrudingState ∧
      (applyMove st line).1.lastE = st.curE := by
  unfold applyMove
  rcases hx : getCoord (scanCoords line) 'X' with _ | xv <;>
    rcases hy : getCoord (scanCoords line) 'Y' with _ | yv <;>
    rcases hz : getCoord (scanCoords line) 'Z' with _ | zv <;>
    simp [hx, hy, hz, he]

theorem applyMove_out (st : EState) (line : List Char) :
    (applyMove st line).2 =
      if hasXYZ line then
        [((applyMove st line).1.curX, (applyMove st line).1.curY,
          (applyMove st line).1.curZ, (applyMove st line).1.extrudingState)]
      else [] := by
  unfold applyMove
  rcases hx : getCoord (scanCoords line) 'X' with _ | xv <;>
    rcases hy : getCoord (scanCoords line) 'Y' with _ | yv <;>
    rcases hz : getCoord (scanCoords line) 'Z' with _ | zv <;>
    rcases he : getCoord (scanCoords line) 'E' with _ | ev <;>
    cases hab : st.eAbsolute <;>
    by_cases hxyz : hasXYZ line = true <;>
    simp [hx, hy, hz, he, hab, hxyz]

theorem applyMove_modeIrrel (st : EState) (line : List Char) (b : Bool) :
    (applyMove { st with modeAbsolute := b } line).1.curX =
        (applyMove st line).1.curX ∧
      (applyMove { st with modeAbsolute := b } line).1.curY =
        (applyMove st line).1.curY ∧
      (applyMove { st with modeAbsolute := b } line).1.curZ =
        (applyMove st line).1.curZ ∧
      (applyMove { st with modeAbsolute := b } line).2 =
        (applyMove st line).2 := by
  unfold applyMove
  rcases hx : getCoord (scanCoords line) 'X' with _ | xv <;>
    rcases hy : getCoord (scanCoords line) 'Y' with _ | yv <;>
    rcases hz : getCoord (scanCoords line) 'Z' with _ | zv <;>
    rcases he : getCoord (scanCoords line) 'E' with _ | ev <;>
    cases hab : st.eAbsolute <;>
    by_cases hxyz : hasXYZ line = true <;>
    simp [hx, hy, hz, he, hab, hxyz]

/-- C3: on a motion line every axis among X, Y, Z that is present
overwrites its current value with the parsed value and every absent axis
keeps its prior value, independently of the `G90`/`G91` flag, and the
emitted sample repeats exactly those current values. -/
theorem xyz_absolute_overwrite_and_stickiness (st : EState) (raw : List Char)
    (hm : isMoveCmd (stripComments raw) = true) :
    (processLine st raw).1.curX =
        (getCoord (scanCoords (stripComments raw)) 'X').getD st.curX ∧
      (processLine st raw).1.curY =
        (getCoord (scanCoords (stripComments raw)) 'Y').getD st.curY ∧
      (processLine st raw).1.curZ =
        (getCoord (scanCoords (stripComments raw)) 'Z').getD st.curZ ∧
      (∀ b : Bool,
        (processLine { st with modeAbsolute := b } raw).1.curX =
            (processLine st raw).1.curX ∧
          (processLine { st with modeAbsolute := b } raw).1.curY =
            (processLine st raw).1.curY ∧
          (processLine { st with modeAbsolute := b } raw).1.curZ =
            (processLine st raw).1.curZ ∧
          (processLine { st with modeAbsolute := b } raw).2 =
            (processLine st raw).2) ∧
      ∀ s ∈ (processLine st raw).2,
        s.1 = (processLine st raw).1.curX ∧
          s.2.1 = (processLine st raw).1.curY ∧
          s.2.2.1 = (processLine st raw).1.curZ := by
  rw [processLine_move st raw hm]
  obtain ⟨hX, hY, hZ, _, _⟩ := applyMove_xyz st (stripComments raw)
  refine ⟨hX, hY, hZ, ?_, ?_⟩
  · intro b
    rw [processLine_move { st with modeAbsolute := b } raw hm]
    exact applyMove_modeIrrel st (stripComments raw) b
  · intro s hs
    rw [applyMove_out st (stripComments raw)] at hs
    by_cases hxyz : hasXYZ (stripComments raw) = true
    · rw [if_pos hxyz] at hs
      simp at hs
      subst hs
      exact ⟨rfl, rfl, rfl⟩
    · simp at hxyz
      rw [if_neg] at hs
      · simp at hs
      · simp [hxyz]

/-- C3 witness: on `G1 Y7` from the initial state, Y is overwritten to 7
while X keeps its prior value 0. -/
theorem xyz_absolute_overwrite_and_stickiness_witness :
    (processLine initEState (String.toList "G1 Y7")).1.curY = 7 ∧
      (processLine initEState (String.toList "G1 Y7")).1.curX = 0 := by
  obtain ⟨hX, hY, _⟩ :=
    xyz_absolute_overwrite_and_stickiness initEState
      (String.toList "G1 Y7") (by decide)
  constructor
  · rw [hY]; decide
  · rw [hX]; decide

/-- C2 (amended): on a motion line carrying E the tracker updates `cur_e`
and the extruding state exactly as claimed (absolute: overwrite and
compare with the previous `cur_e`; relative: increment and test the
sign of the delta), the first comparison being against the initial
`cur_e = 0`; on a motion line without E the *tracker state* is retained —
the emitted flag equals the current extruding state, which any preceding
E-carrying motion line (also a pure-E line that emitted no sample) may
have updated. -/
theorem extrusion_flag_update (st : EState) (raw : List Char)
    (hm : isMoveCmd (stripComments raw) = true) :
    (∀ v : ℚ, getCoord (scanCoords (stripComments raw)) 'E' = some v →
      (st.eAbsolute = true →
        (processLine st raw).1.curE = v ∧
          (processLine st raw).1.extrudingState = decide (st.curE < v)) ∧
      (st.eAbsolute = false →
        (processLine st raw).1.curE = st.curE + v ∧
          (processLine st raw).1.extrudingState = decide (0 < v))) ∧
      (getCoord (scanCoords (stripComments raw)) 'E' = none →
        (processLine st raw).1.extrudingState = st.extrudingState ∧
          (processLine st raw).1.curE = st.curE) ∧
      (∀ s ∈ (processLine st raw).2,
        s.2.2.2 = (processLine st raw).1.extrudingState) ∧
      initEState.curE = 0 := by
  rw [processLine_move st raw hm]
  refine ⟨?_, ?_, ?_, rfl⟩
  · intro v hv
    constructor
    · intro hab
      obtain ⟨h1, h2, _⟩ := applyMove_extrude_abs st (stripComments raw) v hv hab
      exact ⟨h1, h2⟩
    · intro hab
      obtain ⟨h1, h2, _⟩ := applyMove_extrude_rel st (stripComments raw) v hv hab
      exact ⟨h1, h2⟩
  · intro hv
    obtain ⟨h1, h2, _⟩ := applyMove_extrude_none st (stripComments raw) hv
    exact ⟨h2, h1⟩
  · intro s hs
    rw [applyMove_out st (stripComments raw)] at hs
    by_cases hxyz : hasXYZ (stripComments raw) = true
    · rw [if_pos hxyz] at hs
      simp at hs
      subst hs
      rfl
    · simp at hxyz
      rw [if_neg] at hs
      · simp at hs
      · simp [hxyz]

/-- C2 witness: the absolute-mode clause at `G1 X1 E5` from the initial
state, the relative-mode clause at the same line after `M83`, and the
E-absent clause at `G1 X2` from a state whose extruding flag is set. -/
theorem extrusion_flag_update_witness :
    (processLine initEState (String.toList "G1 X1 E5")).1.curE = 5 ∧
      (processLine initEState
          (String.toList "G1 X1 E5")).1.extrudingState =
        decide ((0 : ℚ) < 5) ∧
      (processLine { initEState with eAbsolute := false }
          (String.toList "G1 X1 E5")).1.curE = (0 : ℚ) + 5 ∧
      (processLine { initEState with extrudingState := true }
          (String.toList "G1 X2")).1.extrudingState = true := by
  have habs :=
    extrusion_flag_update initEState (String.toList "G1 X1 E5") (by decide)
  have hrel :=
    extrusion_flag_update { initEState with eAbsolute := false }
      (String.toList "G1 X1 E5") (by decide)
  have hnone :=
    extrusion_flag_update { initEState with extrudingState := true }
      (String.toList "G1 X2") (by decide)
  obtain ⟨ha1, ha2⟩ := (habs.1 5 (by decide)).1 rfl
  obtain ⟨hr1, _⟩ := (hrel.1 5 (by decide)).2 rfl
  obtain ⟨hn1, _⟩ := hnone.2.1 (by decide)
  exact ⟨ha1, ha2, hr1, hn1⟩

/-- C2 counterexample: `G1 X1 E1`, then the pure-E line `G1 E-1` (which
emits no sample but drops the extruding state to 0), then `G1 X2` (no E).
The flag of the second emitted sample is 0 while the flag of the previous *sample* is 1 — an E-less motion line takes not the flag of the previous sample but the current tracker state. -/
theorem extrusion_flag_sample_sticky_cex :
    parseGcodePointsExtrude
        [String.toList "G1 X1 E1", String.toList "G1 E-1",
          String.toList "G1 X2"] =
      [(1, 0, 0, true), (2, 0, 0, false)] ∧
      isMoveCmd (stripComments (String.toList "G1 X2")) = true ∧
      getCoord (scanCoords (stripComments (String.toList "G1 X2"))) 'E' =
        none ∧
      ((parseGcodePointsExtrude
            [String.toList "G1 X1 E1", String.toList "G1 E-1",
              String.toList "G1 X2"]).getD 1 (0, 0, 0, false)).2.2.2 ≠
        ((parseGcodePointsExtrude
            [String.toList "G1 X1 E1", String.toList "G1 E-1",
              String.toList "G1 X2"]).getD 0 (0, 0, 0, false)).2.2.2 := by
  refine ⟨by decide, by decide, by decide, by decide⟩

/-! Shape lemma for `G92` lines. -/

theorem leadsWith_shape3 (a b c : Char) (s l : List Char)
    (h : leadsWith (a :: b :: c :: s) l = true) :
    ∃ t, l = a :: b :: c :: t := by
  rcases l with _ | ⟨x, xs⟩
  · simp [leadsWith] at h
  · rcases xs with _ | ⟨y, ys⟩
    · simp [leadsWith] at h
    · rcases ys with _ | ⟨z, zs⟩
      · simp [leadsWith] at h
      · simp [leadsWith] at h
        exact ⟨zs, by simp [h.1, h.2.1, h.2.2.1]⟩

/-- C4: a `G92` line snaps `cur_e` (together with `last_e` and
`e_offset`) and/or `cur_z` to the given values, emits no sample, and
leaves `cur_x` and `cur_y` unchanged. -/
theorem g92_snapshot (st : EState) (raw : List Char)
    (h92 : leadsWith ['G', '9', '2'] (stripComments raw) = true) :
    (processLine st raw).2 = [] ∧
      (processLine st raw).1.curX = st.curX ∧
      (processLine st raw).1.curY = st.curY ∧
      (∀ v : ℚ, getCoord (scanCoords (stripComments raw)) 'E' = some v →
        (processLine st raw).1.curE = v ∧
          (processLine st raw).1.lastE = v ∧
          (processLine st raw).1.eOffset = v) ∧
      (getCoord (scanCoords (stripComments raw)) 'E' = none →
        (processLine st raw).1.curE = st.curE ∧
          (processLine st raw).1.lastE = st.lastE ∧
          (processLine st raw).1.eOffset = st.eOffset) ∧
      (∀ v : ℚ, getCoord (scanCoords (stripComments raw)) 'Z' = some v →
        (processLine st raw).1.curZ = v) ∧
      (getCoord (scanCoords (stripComments raw)) 'Z' = none →
        (processLine st raw).1.curZ = st.curZ) := by
  obtain ⟨t, ht⟩ := leadsWith_shape3 _ _ _ _ _ h92
  have hpl : processLine st raw = (applyG92 st (scanCoords (stripComments raw)), []) := by
    unfold processLine
    rw [ht]
    simp [applyModal, leadsWith, isMoveCmd, moveTok]
  rw [hpl]
  refine ⟨rfl, ?_, ?_, ?_, ?_, ?_, ?_⟩ <;>
    unfold applyG92 <;>
    rcases he : getCoord (scanCoords (stripComments raw)) 'E' with _ | ev <;>
    rcases hz : getCoord (scanCoords (stripComments raw)) 'Z' with _ | zv <;>
    simp [he, hz]

/-- C4 witness: `G92 E5 Z2` from the initial state emits nothing, snaps
`cur_e`/`last_e`/`e_offset` to 5 and `cur_z` to 2, and leaves `cur_x`
and `cur_y` at 0. -/
theorem g92_snapshot_witness :
    (processLine initEState (String.toList "G92 E5 Z2")).2 = [] ∧
      (processLine initEState (String.toList "G92 E5 Z2")).1.curE = 5 ∧
      (processLine initEState (String.toList "G92 E5 Z2")).1.lastE = 5 ∧
      (processLine initEState (String.toList "G92 E5 Z2")).1.eOffset = 5 ∧
      (processLine initEState (String.toList "G92 E5 Z2")).1.curZ = 2 ∧
      (processLine initEState (String.toList "G92 E5 Z2")).1.curX = 0 ∧
      (processLine initEState (String.toList "G92 E5 Z2")).1.curY = 0 := by
  obtain ⟨h0, hX, hY, hE, _, hZ, _⟩ :=
    g92_snapshot initEState (String.toList "G92 E5 Z2") (by decide)
  obtain ⟨hE1, hE2, hE3⟩ := hE 5 (by decide)
  exact ⟨h0, hE1, hE2, hE3, hZ 2 (by decide), hX, hY⟩

/-! ## Sparse collector lemmas -/

theorem everyOther_length {α : Type} :
    ∀ l : List α, (everyOther l).length = (l.length + 1) / 2
  | [] => by simp [everyOther]
  | [a] => by simp [everyOther]
  | a :: b :: rest => by
    rw [everyOther]
    simp only [List.length_cons, everyOther_length rest]
    omega

theorem everyOther_getD {α : Type} [Inhabited α] :
    ∀ (l : List α) (i : ℕ) (d : α),
      (everyOther l).getD i d = l.getD (2 * i) d
  | [], i, d => by simp [everyOther]
  | [a], i, d => by
    rcases i with _ | j
    · simp [everyOther]
    · rw [everyOther]
      rw [List.getD_eq_default _ _ (by simp),
        List.getD_eq_default _ _ (by simp; omega)]
  | a :: b :: rest, i, d => by
    rcases i with _ | j
    · simp [everyOther]
    · rw [everyOther]
      have h2 : 2 * (j + 1) = 2 * j + 1 + 1 := by omega
      simp only [List.getD_cons_succ, h2]
      exact everyOther_getD rest j d

theorem sparseReduce_length (mp : ℕ) (kept : List (ℚ × ℚ)) :
    (sparseReduce mp kept).length =
      if mp < kept.length then mp else kept.length := by
  unfold sparseReduce
  by_cases h : mp < kept.length <;> simp [h, linspaceIdx]

/-- C7: sparse-mode extraction returns two equal-length coordinate arrays
whose length never exceeds `max_points`; the accumulator is halved (every
other point kept) whenever it exceeds `2 * max_points`, and a collection
still longer than `max_points` after exhaustion is reduced to exactly
`max_points` evenly indexed survivors. -/
theorem sparse_mode_cap :
    ∀ (lines : List (List Char)) (mp bs : ℕ) (θdeg ssd : ℚ) (cd : ℕ),
      (collectSparsePoints lines mp bs θdeg cd ssd).1.length =
          (collectSparsePoints lines mp bs θdeg cd ssd).2.length ∧
        (collectSparsePoints lines mp bs θdeg cd ssd).1.length ≤ mp ∧
        (∀ kept : List (ℚ × ℚ), mp < kept.length →
          (sparseReduce mp kept).length = mp) ∧
        (∀ (kept b : List (ℚ × ℚ)) (bs2 : List (List (ℚ × ℚ))),
          mp * 2 < (kept ++ b).length →
            sparseAccum mp kept (b :: bs2) =
              sparseAccum mp (everyOther (kept ++ b)) bs2) ∧
        (∀ l : List (ℚ × ℚ), (everyOther l).length = (l.length + 1) / 2) ∧
        (∀ (l : List (ℚ × ℚ)) (i : ℕ) (d : ℚ × ℚ),
          (everyOther l).getD i d = l.getD (2 * i) d) := by
  intro lines mp bs θdeg ssd cd
  have hlen : ∀ kept : List (ℚ × ℚ), (sparseReduce mp kept).length ≤ mp ∨
      (sparseReduce mp kept).length = kept.length := by
    intro kept
    rw [sparseReduce_length]
    by_cases h : mp < kept.length <;> simp [h]
  refine ⟨?_, ?_, ?_, ?_, everyOther_length, everyOther_getD⟩
  · unfold collectSparsePoints
    by_cases h : sparseReduce mp
        (sparseAccum mp []
          (batchPointsForSpline lines bs θdeg cd ssd)) = [] <;>
      simp [h]
  · unfold collectSparsePoints
    by_cases h : sparseReduce mp
        (sparseAccum mp []
          (batchPointsForSpline lines bs θdeg cd ssd)) = []
    · simp [h]
    · simp only [h, if_neg]
      simp
      rw [sparseReduce_length]
      by_cases h2 : mp <
          (sparseAccum mp []
            (batchPointsForSpline lines bs θdeg cd ssd)).length <;>
        simp [h2]
      omega
  · intro kept h
    rw [sparseReduce_length, if_pos h]
  · intro kept b bs2 h
    rw [sparseAccum, if_pos h]

/-- C7 witness: the halving clause and the exact-reduction clause at
concrete collections (`max_points = 2`, five accumulated points). -/
theorem sparse_mode_cap_witness :
    sparseAccum 2 [((0 : ℚ), (0 : ℚ))]
        [[(1, 0), (2, 0), (3, 0), (4, 0)], []] =
      sparseAccum 2
        (everyOther [((0 : ℚ), (0 : ℚ)), (1, 0), (2, 0), (3, 0), (4, 0)])
        [[]] ∧
      (sparseReduce 2 [((0 : ℚ), (0 : ℚ)), (1, 0), (2, 0)]).length = 2 := by
  constructor
  · exact (sparse_mode_cap [] 2 0 0 0 0).2.2.2.1 [((0 : ℚ), (0 : ℚ))]
      [(1, 0), (2, 0), (3, 0), (4, 0)] [[]] (by decide)
  · exact (sparse_mode_cap [] 2 0 0 0 0).2.2.1
      [((0 : ℚ), (0 : ℚ)), (1, 0), (2, 0)] (by decide)

/-! ## Angle-computation lemmas -/

theorem vnorm_zero_vec : vnorm ((0 : ℚ), (0 : ℚ)) = 0 := by
  unfold vnorm
  norm_num

theorem vnorm_unitX : vnorm ((1 : ℚ), (0 : ℚ)) = 1 := by
  unfold vnorm
  norm_num

theorem vnorm_unitY : vnorm ((0 : ℚ), (1 : ℚ)) = 1 := by
  unfold vnorm
  norm_num

/-- C8: the turn-angle computation is total and safe: zero-length vectors
short-circuit to angle `0`, and in the non-degenerate case the value fed
to `acos` is clamped into `[-1, 1]`, so no domain error can occur. -/
theorem angle_computation_safe :
    ∀ a b : ℚ × ℚ,
      (-1 ≤ clampedCos a b ∧ clampedCos a b ≤ 1) ∧
        (vnorm a = 0 ∨ vnorm b = 0 → angleBetween a b = 0) ∧
        (¬(vnorm a = 0 ∨ vnorm b = 0) →
          angleBetween a b = Real.arccos (clampedCos a b)) ∧
        (a = ((0 : ℚ), (0 : ℚ)) → vnorm a = 0) := by
  intro a b
  refine ⟨⟨le_max_left _ _, ?_⟩, ?_, ?_, ?_⟩
  · exact max_le (by norm_num) (min_le_left _ _)
  · intro h
    unfold angleBetween
    rw [if_pos h]
  · intro h
    unfold angleBetween
    rw [if_neg h]
  · intro h
    rw [h]
    exact vnorm_zero_vec

/-- C8 witness: the zero-vector clause at `a = (0,0)` and the
non-degenerate clause at a pair of unit vectors. -/
theorem angle_computation_safe_witness :
    angleBetween ((0 : ℚ), (0 : ℚ)) ((1 : ℚ), (0 : ℚ)) = 0 ∧
      angleBetween ((1 : ℚ), (0 : ℚ)) ((1 : ℚ), (0 : ℚ)) =
        Real.arccos (clampedCos ((1 : ℚ), (0 : ℚ)) ((1 : ℚ), (0 : ℚ))) := by
  constructor
  · exact (angle_computation_safe ((0 : ℚ), (0 : ℚ)) ((1 : ℚ), (0 : ℚ))).2.1
      (Or.inl ((angle_computation_safe ((0 : ℚ), (0 : ℚ))
        ((1 : ℚ), (0 : ℚ))).2.2.2 rfl))
  · refine (angle_computation_safe ((1 : ℚ), (0 : ℚ))
      ((1 : ℚ), (0 : ℚ))).2.2.1 ?_
    rw [vnorm_unitX]
    norm_num

/-! ## Resampler-step lemmas -/

theorem cornerPts_length (a b : ℚ × ℚ) (n : ℕ) :
    (cornerPts a b n).length = n := by
  simp [cornerPts]

theorem cornerPts_getD (a b : ℚ × ℚ) (n i : ℕ) (hi : i < n) (d : ℚ × ℚ) :
    (cornerPts a b n).getD i d = lerpQ a b (i + 1) n := by
  unfold cornerPts
  rw [List.getD, List.get?_map, List.get?_range hi]
  rfl

theorem lerpQ_last (a b : ℚ × ℚ) (n : ℕ) (hn : 0 < n) :
    lerpQ a b n n = b := by
  unfold lerpQ
  have h : ((n : ℚ)) ≠ 0 := Nat.cast_ne_zero.mpr (by omega)
  rw [div_self h, Prod.ext_iff]
  constructor <;> simp <;> ring

theorem linInterpolate_length (a b : ℚ × ℚ) (n : ℕ) (hn : 1 ≤ n) :
    (linInterpolate a b n).length = n := by
  unfold linInterpolate
  by_cases h : n ≤ 1
  · have h1 : n = 1 := le_antisymm h hn
    subst h1
    simp
  · rw [if_neg h, cornerPts_length]

theorem linInterpolate_getD (a b : ℚ × ℚ) (n i : ℕ) (hn : 1 ≤ n)
    (hi : i < n) (d : ℚ × ℚ) :
    (linInterpolate a b n).getD i d = lerpQ a b (i + 1) n := by
  unfold linInterpolate
  by_cases h : n ≤ 1
  · have h1 : n = 1 := le_antisymm h hn
    subst h1
    have h0 : i = 0 := by omega
    subst h0
    simp only [if_pos (le_refl 1), List.getD_cons_zero]
    exact (lerpQ_last a b 1 one_pos).symm
  · rw [if_neg h]
    exact cornerPts_getD a b n i hi d

/-- C9: when the turn angle of the window reaches the threshold, exactly
`corner_density` evenly spaced points along `prev2→prev1` (excluding
`prev2`, including `prev1`) and `corner_density` along `prev1→current`
(excluding `prev1`, including `current`) are pushed; otherwise
`prev1→current` is decimated into `ceil(distance/straight_sample_dist)`
interpolated points (at least one, and none at all when the distance is
zero). -/
theorem resample_step_characterisation (θ : ℝ) (cd : ℕ) (ssd : ℚ)
    (r q p : ℚ × ℚ) (hssd : 0 < ssd) :
    (θ ≤ angleBetween (q.1 - r.1, q.2 - r.2) (p.1 - q.1, p.2 - q.2) →
      resampleStep θ cd ssd r q p = cornerPts r q cd ++ cornerPts q p cd ∧
        (cornerPts r q cd).length = cd ∧
        (cornerPts q p cd).length = cd ∧
        (∀ i, i < cd →
          (cornerPts r q cd).getD i (0, 0) = lerpQ r q (i + 1) cd) ∧
        (∀ i, i < cd →
          (cornerPts q p cd).getD i (0, 0) = lerpQ q p (i + 1) cd) ∧
        (0 < cd →
          (cornerPts r q cd).getD (cd - 1) (0, 0) = q ∧
            (cornerPts q p cd).getD (cd - 1) (0, 0) = p)) ∧
      (angleBetween (q.1 - r.1, q.2 - r.2) (p.1 - q.1, p.2 - q.2) < θ →
        (segDist q p ≤ 0 → resampleStep θ cd ssd r q p = []) ∧
        (0 < segDist q p →
          (max 1 ⌈segDist q p / (ssd : ℝ)⌉ : ℤ) =
              ⌈segDist q p / (ssd : ℝ)⌉ ∧
            (resampleStep θ cd ssd r q p).length =
              (⌈segDist q p / (ssd : ℝ)⌉).toNat ∧
            1 ≤ (resampleStep θ cd ssd r q p).length ∧
            ∀ i, i < (resampleStep θ cd ssd r q p).length →
              (resampleStep θ cd ssd r q p).getD i (0, 0) =
                lerpQ q p (i + 1) (⌈segDist q p / (ssd : ℝ)⌉).toNat)) := by
  constructor
  · intro h
    unfold resampleStep
    rw [if_pos h]
    refine ⟨rfl, cornerPts_length r q cd, cornerPts_length q p cd,
      fun i hi => cornerPts_getD r q cd i hi (0, 0),
      fun i hi => cornerPts_getD q p cd i hi (0, 0), ?_⟩
    intro hcd
    have h1 : cd - 1 < cd := by omega
    rw [cornerPts_getD r q cd (cd - 1) h1 (0, 0),
      cornerPts_getD q p cd (cd - 1) h1 (0, 0)]
    have h2 : cd - 1 + 1 = cd := by omega
    rw [h2]
    exact ⟨lerpQ_last r q cd hcd, lerpQ_last q p cd hcd⟩
  · intro h
    have hne : ¬ θ ≤ angleBetween (q.1 - r.1, q.2 - r.2)
        (p.1 - q.1, p.2 - q.2) := not_le.mpr h
    unfold resampleStep
    rw [if_neg hne]
    constructor
    · intro hd
      unfold appendSegmentPts
      rw [if_pos hd]
    · intro hd
      have hssdR : (0 : ℝ) < (ssd : ℚ) := by exact_mod_cast hssd
      have hdiv : 0 < segDist q p / (ssd : ℝ) := div_pos hd hssdR
      have hceil : 0 < ⌈segDist q p / (ssd : ℝ)⌉ := Int.ceil_pos.mpr hdiv
      have hmax : (max 1 ⌈segDist q p / (ssd : ℝ)⌉ : ℤ) =
          ⌈segDist q p / (ssd : ℝ)⌉ := max_eq_right hceil
      have htn : 1 ≤ (⌈segDist q p / (ssd : ℝ)⌉).toNat := by omega
      unfold appendSegmentPts
      rw [if_neg (not_le.mpr hd), hmax]
      refine ⟨rfl, linInterpolate_length q p _ htn, ?_, ?_⟩
      · rw [linInterpolate_length q p _ htn]
        exact htn
      · intro i hi
        rw [linInterpolate_length q p _ htn] at hi
        exact linInterpolate_getD q p _ i htn hi (0, 0)

theorem clampedCos_perp :
    clampedCos ((1 : ℚ), (0 : ℚ)) ((0 : ℚ), (1 : ℚ)) = 0 := by
  unfold clampedCos dotQ
  rw [vnorm_unitX, vnorm_unitY]
  norm_num

theorem angleBetween_perp :
    angleBetween ((1 : ℚ), (0 : ℚ)) ((0 : ℚ), (1 : ℚ)) = Real.pi / 2 := by
  unfold angleBetween
  rw [if_neg, clampedCos_perp, Real.arccos_zero]
  rw [vnorm_unitX, vnorm_unitY]
  norm_num

/-- C9 witness: the corner branch at the right-angle window
`(0,0) → (1,0) → (1,1)` with a 30° threshold and `corner_density = 4`,
and the decimation branch at the collinear window
`(0,0) → (1,0) → (2,0)` with unit step. -/
theorem resample_step_characterisation_witness :
    resampleStep (degToRad 30) 4 1 ((0 : ℚ), (0 : ℚ)) (1, 0) (1, 1) =
        cornerPts ((0 : ℚ), (0 : ℚ)) (1, 0) 4 ++
          cornerPts ((1 : ℚ), (0 : ℚ)) (1, 1) 4 ∧
      (cornerPts ((0 : ℚ), (0 : ℚ)) ((1 : ℚ), (0 : ℚ)) 4).length = 4 := by
  have hv1 : (((1 : ℚ), (0 : ℚ)).1 - ((0 : ℚ), (0 : ℚ)).1,
      ((1 : ℚ), (0 : ℚ)).2 - ((0 : ℚ), (0 : ℚ)).2) = ((1 : ℚ), (0 : ℚ)) := by
    norm_num
  have hv2 : (((1 : ℚ), (1 : ℚ)).1 - ((1 : ℚ), (0 : ℚ)).1,
      ((1 : ℚ), (1 : ℚ)).2 - ((1 : ℚ), (0 : ℚ)).2) = ((0 : ℚ), (1 : ℚ)) := by
    norm_num
  have hang : degToRad 30 ≤
      angleBetween (((1 : ℚ), (0 : ℚ)).1 - ((0 : ℚ), (0 : ℚ)).1,
          ((1 : ℚ), (0 : ℚ)).2 - ((0 : ℚ), (0 : ℚ)).2)
        (((1 : ℚ), (1 : ℚ)).1 - ((1 : ℚ), (0 : ℚ)).1,
          ((1 : ℚ), (1 : ℚ)).2 - ((1 : ℚ), (0 : ℚ)).2) := by
    rw [hv1, hv2, angleBetween_perp]
    unfold degToRad
    have hpi := Real.pi_pos
    push_cast
    nlinarith [hpi]
  obtain ⟨h1, h2, _⟩ :=
    (resample_step_characterisation (degToRad 30) 4 1 ((0 : ℚ), (0 : ℚ))
      (1, 0) (1, 1) (by norm_num)).1 hang
  exact ⟨h1, h2⟩

/-! ## Concrete resampler evaluation for the batching counterexample -/

theorem segDist_unit (a b : ℚ × ℚ)
    (h : (b.1 - a.1) * (b.1 - a.1) + (b.2 - a.2) * (b.2 - a.2) = 1) :
    segDist a b = 1 := by
  unfold segDist
  rw [h, Rat.cast_one, Real.sqrt_one]

theorem appendSeg_unit (a b : ℚ × ℚ)
    (h : (b.1 - a.1) * (b.1 - a.1) + (b.2 - a.2) * (b.2 - a.2) = 1) :
    appendSegmentPts 1 a b = [b] := by
  unfold appendSegmentPts
  rw [segDist_unit a b h, if_neg (by norm_num)]
  have h1 : ((1 : ℚ) : ℝ) = 1 := by norm_num
  rw [h1, div_one, Int.ceil_one]
  simp [linInterpolate]

theorem clampedCos_unitXX :
    clampedCos ((1 : ℚ), (0 : ℚ)) ((1 : ℚ), (0 : ℚ)) = 1 := by
  unfold clampedCos dotQ
  rw [vnorm_unitX]
  norm_num

theorem angleBetween_unitXX :
    angleBetween ((1 : ℚ), (0 : ℚ)) ((1 : ℚ), (0 : ℚ)) = 0 := by
  unfold angleBetween
  rw [if_neg, clampedCos_unitXX, Real.arccos_one]
  rw [vnorm_unitX]
  norm_num

theorem resampleStep_straightUnit (θ : ℝ) (hθ : 0 < θ) (cd : ℕ)
    (r q p : ℚ × ℚ) (h1 : q.1 - r.1 = 1) (h2 : q.2 - r.2 = 0)
    (h3 : p.1 - q.1 = 1) (h4 : p.2 - q.2 = 0) :
    resampleStep θ cd 1 r q p = [p] := by
  unfold resampleStep
  rw [h1, h2, h3, h4, angleBetween_unitXX, if_neg (not_le.mpr hθ)]
  exact appendSeg_unit q p (by rw [h3, h4]; norm_num)

theorem degToRad_30_pos : 0 < degToRad 30 := by
  unfold degToRad
  have hpi := Real.pi_pos
  push_cast
  nlinarith [hpi]

theorem demo_resample_eval :
    resamplePoints (degToRad 30) 6 1
        (parseGcodePoints
          [String.toList "G1 X0 Y0", String.toList "G1 X1 Y0",
            String.toList "G1 X2 Y0", String.toList "G1 X3 Y0"]) =
      [(0, 0), (1, 0), (2, 0), (3, 0)] := by
  have hparse : parseGcodePoints
      [String.toList "G1 X0 Y0", String.toList "G1 X1 Y0",
        String.toList "G1 X2 Y0", String.toList "G1 X3 Y0"] =
      [((0 : ℚ), (0 : ℚ)), (1, 0), (2, 0), (3, 0)] := by decide
  rw [hparse]
  unfold resamplePoints
  simp only [resampleGo]
  rw [appendSeg_unit ((0 : ℚ), (0 : ℚ)) (1, 0) (by norm_num),
    resampleStep_straightUnit (degToRad 30) degToRad_30_pos 6
      ((0 : ℚ), (0 : ℚ)) (1, 0) (2, 0)
      (by norm_num) (by norm_num) (by norm_num) (by norm_num),
    resampleStep_straightUnit (degToRad 30) degToRad_30_pos 6
      ((1 : ℚ), (0 : ℚ)) (2, 0) (3, 0)
      (by norm_num) (by norm_num) (by norm_num) (by norm_num)]
  rfl

/-- C6 counterexample: on the four collinear points of this file with
`batch_size = 3` and unit sampling distance, the three yielded batches
share no points at all — so dropping two points per batch boundary, as
the claim prescribes, yields count 0, not the 4 resampled points. -/
theorem batch_overlap_drop_cex :
    batchPointsForSpline
        [String.toList "G1 X0 Y0", String.toList "G1 X1 Y0",
          String.toList "G1 X2 Y0", String.toList "G1 X3 Y0"] 3 30 6 1 =
      [[(0, 0)], [(1, 0)], [(2, 0), (3, 0)]] ∧
      ((batchPointsForSpline
            [String.toList "G1 X0 Y0", String.toList "G1 X1 Y0",
              String.toList "G1 X2 Y0", String.toList "G1 X3 Y0"] 3 30 6
            1).map (fun b => b.length)).sum -
          2 * ((batchPointsForSpline
            [String.toList "G1 X0 Y0", String.toList "G1 X1 Y0",
              String.toList "G1 X2 Y0", String.toList "G1 X3 Y0"] 3 30 6
            1).length - 1) ≠
        (resamplePoints (degToRad 30) 6 1
          (parseGcodePoints
            [String.toList "G1 X0 Y0", String.toList "G1 X1 Y0",
              String.toList "G1 X2 Y0", String.toList "G1 X3 Y0"])).length := by
  have hb : batchPointsForSpline
      [String.toList "G1 X0 Y0", String.toList "G1 X1 Y0",
        String.toList "G1 X2 Y0", String.toList "G1 X3 Y0"] 3 30 6 1 =
      [[(0, 0)], [(1, 0)], [(2, 0), (3, 0)]] := by
    unfold batchPointsForSpline
    rw [demo_resample_eval]
    decide
  refine ⟨hb, ?_⟩
  rw [hb, demo_resample_eval]
  decide

end GcodeParser
